import Mathlib

/-!
Verification of the operator-declaration rules in `src/op/declare/binary.cc`
and the dialect-dispatch pass in `src/pass/dispatch_dialect.cc` of the raf
repository, against its natural-language specification.

Modelling conventions:
* C++ `int64_t` payloads are modelled as `Int` (the source performs plain
  host arithmetic on the widened payloads; overflow is undefined behaviour in
  the source and out of scope).
* C++ `double` payloads are modelled as `ℚ` with exact arithmetic; the exact
  identities claimed by the spec (`fmod`, sign rules) are rounding-free.
* Fatal errors (`LOG(FATAL)` followed by `throw`) are modelled as an
  `Except`/`Option` error result: no output is produced.
-/

namespace Raf

/-- The widened scalar payloads of `IntValueObj` (`int64_t`), `FloatValueObj`
(`double`), `BoolValueObj` (`bool`), as described by the value data model. -/
inductive Scalar where
  | i : Int → Scalar
  | f : ℚ → Scalar
  | b : Bool → Scalar
deriving DecidableEq, Repr

/-- C++ integral promotion of a `bool` payload. -/
def boolInt (v : Bool) : Int := if v then 1 else 0

/-- Whether the scalar is a `FloatValueObj` (`IsInstance<FloatValueObj>`). -/
def Scalar.isFloat : Scalar → Bool
  | .f _ => true
  | _ => false

/-- The widened payload read at `double` precision (C++ arithmetic conversion
to `double` when any operand is `double`). -/
def Scalar.toQ : Scalar → ℚ
  | .i n => (n : ℚ)
  | .f q => q
  | .b v => ((boolInt v : Int) : ℚ)

/-- The widened payload read at `int64_t` precision (used when no operand is
`double`). -/
def Scalar.toI : Scalar → Int
  | .i n => n
  | .f _ => 0
  | .b v => boolInt v

/-- `s->data == 0`: the zero test the divide/mod rules perform on the widened
divisor payload. -/
def Scalar.isZero : Scalar → Bool
  | .i n => n == 0
  | .f q => q == 0
  | .b v => v == false

/-- C++ evaluation of `v1->data OP v2->data` for an arithmetic operator, one
case per pair of scalar object kinds, following the usual arithmetic
conversions: if either side is `double` the operation happens in `double`
(here `ℚ`), otherwise in `int64_t` (with `bool` promoted to an integer). -/
def cArith (fI : Int → Int → Int) (fQ : ℚ → ℚ → ℚ) : Scalar → Scalar → Scalar
  | .i a, .i c => .i (fI a c)
  | .i a, .f q => .f (fQ (a : ℚ) q)
  | .i a, .b v => .i (fI a (boolInt v))
  | .f p, .i c => .f (fQ p (c : ℚ))
  | .f p, .f q => .f (fQ p q)
  | .f p, .b v => .f (fQ p ((boolInt v : Int) : ℚ))
  | .b u, .i c => .i (fI (boolInt u) c)
  | .b u, .f q => .f (fQ ((boolInt u : Int) : ℚ) q)
  | .b u, .b v => .i (fI (boolInt u) (boolInt v))

/-- C++ evaluation of `v1->data OP v2->data` for a comparison operator,
promotions as in `cArith`, result a `bool` payload. -/
def cCmp (fI : Int → Int → Bool) (fQ : ℚ → ℚ → Bool) : Scalar → Scalar → Scalar
  | .i a, .i c => .b (fI a c)
  | .i a, .f q => .b (fQ (a : ℚ) q)
  | .i a, .b v => .b (fI a (boolInt v))
  | .f p, .i c => .b (fQ p (c : ℚ))
  | .f p, .f q => .b (fQ p q)
  | .f p, .b v => .b (fQ p ((boolInt v : Int) : ℚ))
  | .b u, .i c => .b (fI (boolInt u) c)
  | .b u, .f q => .b (fQ ((boolInt u : Int) : ℚ) q)
  | .b u, .b v => .b (fI (boolInt u) (boolInt v))

/-- Truncation of a rational toward zero, as C++ does when forming the
quotient underlying `fmod`. -/
def ratTrunc (q : ℚ) : Int := if 0 ≤ q then ⌊q⌋ else ⌈q⌉

/-- Modelled from the spec: the C library `fmod` (declared in `<cmath>`, not
under `src/`): the floating remainder `a - trunc(a/b) * b`, whose sign
follows the dividend. Exact over `ℚ`. -/
def qfmod (a b : ℚ) : ℚ := a - (ratTrunc (a / b) : ℚ) * b

/-- The body of the `mnm.op.mod` scalar branch: floating remainder if either
operand is a `FloatValueObj`, else truncating `int64_t` remainder (`%`). -/
def cMod (s1 s2 : Scalar) : Scalar :=
  if s1.isFloat || s2.isFloat then .f (qfmod s1.toQ s2.toQ)
  else .i (Int.tmod s1.toI s2.toI)

/-- The metadata of a `DLTensor` / assembled `TensorValue`: device (`ctx`),
element dtype, and shape (a list of `int64_t` dimension sizes). Devices and
dtypes are opaque identifiers. -/
structure TensorValue where
  ctx : Nat
  dtype : Nat
  shape : List Int
deriving DecidableEq, Repr

/-- An operand `Value`: a scalar value object or a tensor value object
(the variants the binary declaration rules inspect). -/
inductive Value where
  | scalar : Scalar → Value
  | tensor : TensorValue → Value
deriving DecidableEq, Repr

/-- `MNM_SWITCH_SCALAR`: succeeds exactly on the three scalar object kinds,
falling through (`none`) on anything else. -/
def scalarOf : Value → Option Scalar
  | .scalar s => some s
  | .tensor _ => none

/-- The `BinaryUfuncArgs` schema `{x1, x2, out, where}`; `none` models an
undefined (absent) optional operand. -/
structure BinaryUfuncArgs where
  x1 : Value
  x2 : Value
  out : Option Value
  whereArg : Option Value
deriving DecidableEq, Repr

/-- The fatal failures a declaration rule can raise. -/
inductive DeclErr where
  | shapeMismatch   -- LOG(FATAL) << "Cannot broadcast"
  | zeroDivision    -- LOG(FATAL) << "ZeroDivisionError: division by zero"
  | notImplemented  -- LOG(FATAL) << "NotImplementedError"
deriving DecidableEq, Repr

/-- The fields a declaration rule writes into the `CallValues`:
`out`, whether `callee` was set to the null `OpValue` (constant folding),
and the `ctx` field if it was set. -/
structure DeclResult where
  out : Value
  calleeCleared : Bool
  ctx : Option Nat
deriving DecidableEq, Repr

/-- One step of the loop in `MakeBinaryTensor`: given the two aligned sizes
`d1`, `d2` at a position, the output size, or `none` for the fatal
"Cannot broadcast" branch. -/
def broadcastDim (d1 d2 : Int) : Option Int :=
  if d1 = 1 then some d2
  else if d2 = 1 then some d1
  else if d1 = d2 then some d1
  else none

/-- Option-valued elementwise map used to model the `oshape` loop: the list
of results if every position succeeds, `none` as soon as one fails. -/
def mapOpt (f : Nat → Option Int) : List Nat → Option (List Int)
  | [] => some []
  | j :: js =>
    match f j, mapOpt f js with
    | some d, some rest => some (d :: rest)
    | _, _ => none

/-- The `oshape` computation of `MakeBinaryTensor` (`binary.cc` lines 44-62):
output rank is `max` of the input ranks; the loop reads, for each trailing
position `i`, `shape[ndim_k - 1 - i]` (or `1` past the smaller rank) and
combines them with `broadcastDim`, writing output slot `ndim - 1 - i`. Here
the output list is produced slot by slot (slot `j` corresponds to loop index
`i = ndim - 1 - j`); any failing position is the fatal error. -/
def makeBinaryTensorShape (s1 s2 : List Int) : Option (List Int) :=
  let n1 := s1.length
  let n2 := s2.length
  let n := max n1 n2
  mapOpt (fun j =>
    let i := n - 1 - j
    let d1 := if i < n1 then s1.getD (n1 - 1 - i) 1 else 1
    let d2 := if i < n2 then s2.getD (n2 - 1 - i) 1 else 1
    broadcastDim d1 d2) (List.range n)

/-- `MakeBinaryTensor`: on success, a tensor assembled from `x1`'s ctx,
`x1`'s dtype and the broadcast shape. -/
def MakeBinaryTensor (x1 x2 : TensorValue) : Option TensorValue :=
  (makeBinaryTensorShape x1.shape x2.shape).map fun os => ⟨x1.ctx, x1.dtype, os⟩

/-- `MNM_BINARY_SCALAR(op, x1, x2)`: if both operands are scalar objects, set
`callee` to null and `out` to the folded scalar; otherwise fall through. -/
def binaryScalar (f : Scalar → Scalar → Scalar) (x1 x2 : Value) : Option DeclResult :=
  match scalarOf x1, scalarOf x2 with
  | some s1, some s2 => some ⟨.scalar (f s1 s2), true, none⟩
  | _, _ => none

/-- `MNM_BINARY_TENSOR(x1, x2)`: if both operands are tensors, set `out` to
the broadcast tensor and `ctx` to its device (the fatal broadcast error
propagates); otherwise fall through. `callee` is left untouched. -/
def binaryTensor (x1 x2 : Value) : Option (Except DeclErr DeclResult) :=
  match x1, x2 with
  | .tensor t1, .tensor t2 =>
    some (match MakeBinaryTensor t1 t2 with
          | some tv => .ok ⟨.tensor tv, false, some tv.ctx⟩
          | none => .error .shapeMismatch)
  | _, _ => none

/-- The declaration body shared by `mnm.op.add` / `subtract` / `multiply`:
guard on absent `out`/`where`, try the scalar fold, try the tensor broadcast,
otherwise the fatal `NotImplementedError`. -/
def declareArith (f : Scalar → Scalar → Scalar) (a : BinaryUfuncArgs) :
    Except DeclErr DeclResult :=
  if a.out.isNone && a.whereArg.isNone then
    match binaryScalar f a.x1 a.x2 with
    | some r => .ok r
    | none =>
      match binaryTensor a.x1 a.x2 with
      | some r => r
      | none => .error .notImplemented
  else .error .notImplemented

/-- The declaration body shared by the six comparison operators: only the
scalar fold is implemented; everything else is `NotImplementedError`. -/
def declareCmp (f : Scalar → Scalar → Scalar) (a : BinaryUfuncArgs) :
    Except DeclErr DeclResult :=
  if a.out.isNone && a.whereArg.isNone then
    match binaryScalar f a.x1 a.x2 with
    | some r => .ok r
    | none => .error .notImplemented
  else .error .notImplemented

/-- `mnm.op.divide` (`binary.cc` lines 105-123): scalar-only; a zero widened
divisor payload is the fatal `ZeroDivisionError` (checked before `callee` and
`out` are written); otherwise fold `s1->data / s2->data`. -/
def declareDivide (a : BinaryUfuncArgs) : Except DeclErr DeclResult :=
  if a.out.isNone && a.whereArg.isNone then
    match scalarOf a.x1, scalarOf a.x2 with
    | some s1, some s2 =>
      if s2.isZero then .error .zeroDivision
      else .ok ⟨.scalar (cArith Int.tdiv (· / ·) s1 s2), true, none⟩
    | _, _ => .error .notImplemented
  else .error .notImplemented

/-- `mnm.op.mod` (`binary.cc` lines 125-154): scalar-only; zero divisor is
fatal; otherwise `fmod` in `double` if either operand is a float object, else
truncating `int64_t` remainder. -/
def declareMod (a : BinaryUfuncArgs) : Except DeclErr DeclResult :=
  if a.out.isNone && a.whereArg.isNone then
    match scalarOf a.x1, scalarOf a.x2 with
    | some s1, some s2 =>
      if s2.isZero then .error .zeroDivision
      else .ok ⟨.scalar (cMod s1 s2), true, none⟩
    | _, _ => .error .notImplemented
  else .error .notImplemented

/-- The eleven binary ufunc operators declared in `binary.cc`. -/
inductive UfuncOp where
  | add | subtract | multiply | divide | mod
  | less | greater | lessEqual | greaterEqual | equal | notEqual
deriving DecidableEq, Repr

/-- The registered declaration rule of each operator. -/
def declareUfunc : UfuncOp → BinaryUfuncArgs → Except DeclErr DeclResult
  | .add => declareArith (cArith (· + ·) (· + ·))
  | .subtract => declareArith (cArith (· - ·) (· - ·))
  | .multiply => declareArith (cArith (· * ·) (· * ·))
  | .divide => declareDivide
  | .mod => declareMod
  | .less => declareCmp (cCmp (fun a c => decide (a < c)) (fun p q => decide (p < q)))
  | .greater => declareCmp (cCmp (fun a c => decide (c < a)) (fun p q => decide (q < p)))
  | .lessEqual => declareCmp (cCmp (fun a c => decide (a ≤ c)) (fun p q => decide (p ≤ q)))
  | .greaterEqual => declareCmp (cCmp (fun a c => decide (c ≤ a)) (fun p q => decide (q ≤ p)))
  | .equal => declareCmp (cCmp (fun a c => decide (a = c)) (fun p q => decide (p = q)))
  | .notEqual => declareCmp (cCmp (fun a c => decide (a ≠ c)) (fun p q => decide (p ≠ q)))

/-- `mnm.op.add_dx` (`binary.cc` lines 228-241): CHECK that the parameter's
rank does not exceed the gradient's and that each parameter dimension is `1`
or equals `dy->shape[i + offset]` (`offset = dy->ndim - x->ndim`); on success
set `ctx` and assemble `out` from `x`'s ctx, dtype and exact shape. A failing
CHECK is fatal (`none`). -/
def declareAddDx (x dy : TensorValue) : Option DeclResult :=
  let n1 := x.shape.length
  let n2 := dy.shape.length
  if n1 ≤ n2 then
    let offset := n2 - n1
    if (List.range n1).all
        (fun i => x.shape.getD i 0 == 1 || x.shape.getD i 0 == dy.shape.getD (i + offset) 0)
    then some ⟨.tensor ⟨x.ctx, x.dtype, x.shape⟩, false, some x.ctx⟩
    else none
  else none

/-! ### Spec-side definitions (worded as in the specification) -/

/-- Spec wording: apply the host arithmetic operator to the widened operand
payloads — in the floating domain if either operand is floating, else in the
integer domain. -/
def hostArith (fI : Int → Int → Int) (fQ : ℚ → ℚ → ℚ) (s1 s2 : Scalar) : Scalar :=
  if s1.isFloat || s2.isFloat then .f (fQ s1.toQ s2.toQ) else .i (fI s1.toI s2.toI)

/-- Spec wording: apply the host comparison operator to the widened operand
payloads, yielding a boolean scalar. -/
def hostCmp (fI : Int → Int → Bool) (fQ : ℚ → ℚ → Bool) (s1 s2 : Scalar) : Scalar :=
  if s1.isFloat || s2.isFloat then .b (fQ s1.toQ s2.toQ) else .b (fI s1.toI s2.toI)

/-- Spec wording: the host numeric operator corresponding to each binary
ufunc, applied to the widened operand payloads. -/
def hostScalarOp : UfuncOp → Scalar → Scalar → Scalar
  | .add => hostArith (· + ·) (· + ·)
  | .subtract => hostArith (· - ·) (· - ·)
  | .multiply => hostArith (· * ·) (· * ·)
  | .divide => hostArith Int.tdiv (· / ·)
  | .mod => fun s1 s2 =>
      if s1.isFloat || s2.isFloat then .f (qfmod s1.toQ s2.toQ)
      else .i (Int.tmod s1.toI s2.toI)
  | .less => hostCmp (fun a c => decide (a < c)) (fun p q => decide (p < q))
  | .greater => hostCmp (fun a c => decide (c < a)) (fun p q => decide (q < p))
  | .lessEqual => hostCmp (fun a c => decide (a ≤ c)) (fun p q => decide (p ≤ q))
  | .greaterEqual => hostCmp (fun a c => decide (c ≤ a)) (fun p q => decide (q ≤ p))
  | .equal => hostCmp (fun a c => decide (a = c)) (fun p q => decide (p = q))
  | .notEqual => hostCmp (fun a c => decide (a ≠ c)) (fun p q => decide (p ≠ q))

/-- Spec wording: the size of a shape at trailing position `i` (counted from
the fastest-varying dimension backward), size `1` past the shape's rank. -/
def trailDim (s : List Int) (i : Nat) : Int :=
  if i < s.length then s.getD (s.length - 1 - i) 1 else 1

/-- Spec wording: the output size at a position — `d2` if `d1 == 1`, `d1` if
`d2 == 1`, `d1` if `d1 == d2`. -/
def specBroadcastDim (d1 d2 : Int) : Int :=
  if d1 = 1 then d2 else if d2 = 1 then d1 else d1

/-- Spec wording: an aligned pair of sizes is broadcast-compatible when the
sizes are equal or at least one of them is `1`. -/
def dimCompat (d1 d2 : Int) : Prop := d1 = 1 ∨ d2 = 1 ∨ d1 = d2

instance (d1 d2 : Int) : Decidable (dimCompat d1 d2) := by
  unfold dimCompat; infer_instance

/-- Whether an operand value is a tensor object. -/
def Value.isTensorV : Value → Bool
  | .tensor _ => true
  | _ => false

/-! ### The dialect-dispatch pass (`src/pass/dispatch_dialect.cc`) -/

/-- Operator identifiers (the `OpNode` references the mutator rewrites). -/
abbrev OpId := Nat

/-- Device types (`DevType`); `0` is `DevType::kUnknown()`. -/
abbrev DevType := Nat

/-- `DevType::kUnknown()`. -/
def kUnknownDev : DevType := 0

/-- Modelled from the spec: the op/dialect registry consumed by the pass.
`IsDialectOp` and `OpDialect::Dispatch` are declared in `mnm/op.h`, outside
the two source files: per the spec, dialect selection is a total function of
(base op, device type) — for a fixed registry snapshot `dispatch` returns the
highest-priority dialect variant, or `none` when the op has no dialect
counterpart for that device; `isDialect` recognizes dialect-specific ops. -/
structure OpRegistry where
  isDialect : OpId → Bool
  dispatch : OpId → DevType → Option OpId

/-- The expression trees the mutator walks: variables, operator references,
calls, functions (carrying the `kPrimitive` attribute as a flag and a
parameter list), let bindings, tuples and conditionals. -/
inductive Expr where
  | var : Nat → Expr
  | opRef : OpId → Expr
  | call : Expr → List Expr → Expr
  | func : Bool → List Nat → Expr → Expr
  | letE : Nat → Expr → Expr → Expr
  | tuple : List Expr → Expr
  | ifE : Expr → Expr → Expr → Expr

/-- `DispatchMutator`: a structural rewrite of the tree. A function whose
primitive attribute is nonzero is returned unchanged without recursing; an
op reference that is not already a dialect op is replaced by the registered
dialect op for the device when one exists; every other node is rebuilt from
its rewritten children. -/
def dispatchVisit (R : OpRegistry) (dev : DevType) : Expr → Expr
  | .var v => .var v
  | .opRef o =>
    if R.isDialect o then .opRef o
    else
      match R.dispatch o dev with
      | some o2 => .opRef o2
      | none => .opRef o
  | .call f args => .call (dispatchVisit R dev f) (args.attach.map fun a => dispatchVisit R dev a.1)
  | .func prim ps b =>
    if prim then .func prim ps b else .func prim ps (dispatchVisit R dev b)
  | .letE v e1 e2 => .letE v (dispatchVisit R dev e1) (dispatchVisit R dev e2)
  | .tuple es => .tuple (es.attach.map fun a => dispatchVisit R dev a.1)
  | .ifE c t e => .ifE (dispatchVisit R dev c) (dispatchVisit R dev t) (dispatchVisit R dev e)
termination_by e => sizeOf e
decreasing_by
  all_goals simp_wf
  all_goals try (have h := List.sizeOf_lt_of_mem a.2; omega)
  all_goals omega

/-- A `Device`: device type and device index, as read from the ambient
current-device context at pass entry. -/
structure Device where
  device_type : DevType
  device_id : Int
deriving DecidableEq, Repr

/-- `dispatch_dialect::Dispatch` (lines 67-75): read the current device once;
with an unknown device type or a negative device index, warn and return the
expression unchanged; otherwise run the mutator with the device type. -/
def Dispatch (dev : Device) (R : OpRegistry) (e : Expr) : Expr :=
  if dev.device_type = kUnknownDev ∨ dev.device_id < 0 then e
  else dispatchVisit R dev.device_type e

/-- One-hole contexts over `Expr`, used to speak about an occurrence of a
sub-expression inside a larger expression. -/
inductive Ctx where
  | hole
  | callFn : Ctx → List Expr → Ctx
  | callArg : Expr → List Expr → Ctx → List Expr → Ctx
  | funcBody : Bool → List Nat → Ctx → Ctx
  | letVal : Nat → Ctx → Expr → Ctx
  | letBody : Nat → Expr → Ctx → Ctx
  | tupleElem : List Expr → Ctx → List Expr → Ctx
  | ifCond : Ctx → Expr → Expr → Ctx
  | ifThen : Expr → Ctx → Expr → Ctx
  | ifElse : Expr → Expr → Ctx → Ctx

/-- Plug an expression into the hole of a context. -/
def Ctx.fill : Ctx → Expr → Expr
  | .hole, g => g
  | .callFn c args, g => .call (c.fill g) args
  | .callArg f pre c post, g => .call f (pre ++ c.fill g :: post)
  | .funcBody prim ps c, g => .func prim ps (c.fill g)
  | .letVal v c e2, g => .letE v (c.fill g) e2
  | .letBody v e1 c, g => .letE v e1 (c.fill g)
  | .tupleElem pre c post, g => .tuple (pre ++ c.fill g :: post)
  | .ifCond c t e, g => .ifE (c.fill g) t e
  | .ifThen cnd c e, g => .ifE cnd (c.fill g) e
  | .ifElse cnd t c, g => .ifE cnd t (c.fill g)

/-! ## Theorems -/

/-! ### Scalar promotion: per-kind tables agree with widen-then-apply -/

theorem cArith_eq_hostArith (fI : Int → Int → Int) (fQ : ℚ → ℚ → ℚ)
    (s1 s2 : Scalar) : cArith fI fQ s1 s2 = hostArith fI fQ s1 s2 := by
  cases s1 <;> cases s2 <;>
    simp [cArith, hostArith, Scalar.isFloat, Scalar.toQ, Scalar.toI]

theorem cCmp_eq_hostCmp (fI : Int → Int → Bool) (fQ : ℚ → ℚ → Bool)
    (s1 s2 : Scalar) : cCmp fI fQ s1 s2 = hostCmp fI fQ s1 s2 := by
  cases s1 <;> cases s2 <;>
    simp [cCmp, hostCmp, Scalar.isFloat, Scalar.toQ, Scalar.toI]

/-- C3: for every pair of scalar operands (nonzero divisor for divide/mod)
and every binary arithmetic/comparison operator, with no `out`/`where`
supplied, the rule folds the call: `out` becomes the `ScalarValue` obtained
by applying the corresponding host numeric operator to the widened operand
payloads, and `callee` is set to null (no runtime op retained). -/
theorem scalar_fold_eq_host (op : UfuncOp) (s1 s2 : Scalar)
    (h : (op = .divide ∨ op = .mod) → s2.isZero = false) :
    declareUfunc op ⟨.scalar s1, .scalar s2, none, none⟩ =
      .ok ⟨.scalar (hostScalarOp op s1 s2), true, none⟩ := by
  cases op
  case divide =>
    have hz := h (Or.inl rfl)
    simp [declareUfunc, declareDivide, scalarOf, hz, hostScalarOp, cArith_eq_hostArith]
  case mod =>
    have hz := h (Or.inr rfl)
    simp [declareUfunc, declareMod, scalarOf, hz, hostScalarOp, cMod]
  all_goals
    simp [declareUfunc, declareArith, declareCmp, binaryScalar, scalarOf,
      hostScalarOp, cArith_eq_hostArith, cCmp_eq_hostCmp]

theorem scalar_fold_eq_host_witness :
    (((UfuncOp.add = UfuncOp.divide ∨ UfuncOp.add = UfuncOp.mod) →
        (Scalar.f (7 / 2)).isZero = false) ∧
      declareUfunc .add ⟨.scalar (.i 2), .scalar (.f (7 / 2)), none, none⟩ =
        .ok ⟨.scalar (hostScalarOp .add (.i 2) (.f (7 / 2))), true, none⟩) ∧
    declareUfunc .divide ⟨.scalar (.i 7), .scalar (.i 2), none, none⟩ =
      .ok ⟨.scalar (hostScalarOp .divide (.i 7) (.i 2)), true, none⟩ :=
  ⟨⟨by decide, scalar_fold_eq_host .add (.i 2) (.f (7 / 2)) (by decide)⟩,
    scalar_fold_eq_host .divide (.i 7) (.i 2) (by decide)⟩

/-- C4: a scalar divisor whose widened payload is exactly zero makes both the
divide and the mod rule fail fatally with the division-by-zero error; the
error is raised before `callee` or `out` is written, so no result is
produced. -/
theorem divide_mod_zero_divisor (s1 s2 : Scalar) (h : s2.isZero = true) :
    declareUfunc .divide ⟨.scalar s1, .scalar s2, none, none⟩ = .error .zeroDivision ∧
    declareUfunc .mod ⟨.scalar s1, .scalar s2, none, none⟩ = .error .zeroDivision := by
  constructor <;> simp [declareUfunc, declareDivide, declareMod, scalarOf, h]

theorem divide_mod_zero_divisor_witness :
    (Scalar.f 0).isZero = true ∧
    declareUfunc .divide ⟨.scalar (.i 5), .scalar (.f 0), none, none⟩ = .error .zeroDivision ∧
    declareUfunc .mod ⟨.scalar (.i 5), .scalar (.f 0), none, none⟩ = .error .zeroDivision :=
  ⟨by decide, divide_mod_zero_divisor (.i 5) (.f 0) (by decide)⟩

theorem scalarOf_eq_none_of_tensor (x : Value) (hx : x.isTensorV = true) :
    scalarOf x = none := by
  cases x <;> simp_all [Value.isTensorV, scalarOf]

/-- C7: the six comparison operators and divide and mod implement only the
scalar path: any invocation with a tensor (non-scalar) operand falls through
to the fatal `NotImplementedError`, whatever `out`/`where` are. -/
theorem cmp_div_mod_tensor_not_implemented (op : UfuncOp) (x1 x2 : Value)
    (out wh : Option Value)
    (hop : op = .less ∨ op = .greater ∨ op = .lessEqual ∨ op = .greaterEqual ∨
      op = .equal ∨ op = .notEqual ∨ op = .divide ∨ op = .mod)
    (hx : x1.isTensorV = true ∨ x2.isTensorV = true) :
    declareUfunc op ⟨x1, x2, out, wh⟩ = .error .notImplemented := by
  rcases hop with rfl | rfl | rfl | rfl | rfl | rfl | rfl | rfl <;>
    cases x1 <;> cases x2 <;>
      first
      | (cases out <;> cases wh <;>
          simp [declareUfunc, declareCmp, declareDivide, declareMod,
            binaryScalar, scalarOf] <;> done)
      | simp_all [Value.isTensorV]

theorem cmp_div_mod_tensor_not_implemented_witness :
    ((UfuncOp.less = UfuncOp.less ∨ UfuncOp.less = UfuncOp.greater ∨
      UfuncOp.less = UfuncOp.lessEqual ∨ UfuncOp.less = UfuncOp.greaterEqual ∨
      UfuncOp.less = UfuncOp.equal ∨ UfuncOp.less = UfuncOp.notEqual ∨
      UfuncOp.less = UfuncOp.divide ∨ UfuncOp.less = UfuncOp.mod) ∧
     ((Value.tensor ⟨0, 0, [2]⟩).isTensorV = true ∨
       (Value.scalar (.i 1)).isTensorV = true)) ∧
    declareUfunc .less ⟨.tensor ⟨0, 0, [2]⟩, .scalar (.i 1), none, none⟩ =
      .error .notImplemented :=
  ⟨⟨by decide, by decide⟩,
    cmp_div_mod_tensor_not_implemented .less _ _ none none (by decide) (by decide)⟩

/-! ### Remainder semantics -/

theorem neg_tmod_left (a b : Int) : (-a).tmod b = -(a.tmod b) := by
  rw [Int.tmod_def, Int.tmod_def, Int.neg_tdiv]; ring

theorem tmod_nonpos_of_nonpos {a : Int} (b : Int) (h : a ≤ 0) : a.tmod b ≤ 0 := by
  have h2 : (0 : Int) ≤ -a := by omega
  have h3 := Int.tmod_nonneg b h2
  rw [neg_tmod_left] at h3
  omega

theorem natAbs_tmod_lt (a : Int) {b : Int} (hb : b ≠ 0) :
    (a.tmod b).natAbs < b.natAbs := by
  have hpos : (0 : Int) < (b.natAbs : Int) := by
    have := Int.natAbs_pos.mpr hb
    exact_mod_cast this
  have h1 : a.tmod b = a.tmod (b.natAbs : Int) := by
    rcases Int.natAbs_eq b with h | h
    · conv_lhs => rw [h]
    · conv_lhs => rw [h, Int.tmod_neg]
  have main : ∀ x : Int, 0 ≤ x → (x.tmod (b.natAbs : Int)).natAbs < b.natAbs := by
    intro x hx
    have h2 := Int.tmod_nonneg (b.natAbs : Int) hx
    have h3 := Int.tmod_lt_of_pos x hpos
    omega
  rcases le_or_lt 0 a with ha | ha
  · rw [h1]; exact main a ha
  · rw [h1]
    have h4 : a.tmod (b.natAbs : Int) = -((-a).tmod (b.natAbs : Int)) := by
      rw [neg_tmod_left]; omega
    rw [h4, Int.natAbs_neg]
    exact main (-a) (by omega)

theorem ratTrunc_neg (q : ℚ) : ratTrunc (-q) = -(ratTrunc q) := by
  unfold ratTrunc
  rcases lt_trichotomy q 0 with h | h | h
  · rw [if_pos (by linarith), if_neg (by linarith), Int.floor_neg]
  · simp [h]
  · rw [if_neg (by linarith), if_pos (by linarith), Int.ceil_neg]

theorem qfmod_neg_left (a b : ℚ) : qfmod (-a) b = -(qfmod a b) := by
  unfold qfmod
  rw [neg_div, ratTrunc_neg]
  push_cast
  ring

theorem qfmod_nonneg (a b : ℚ) (h : 0 ≤ a) : 0 ≤ qfmod a b := by
  unfold qfmod ratTrunc
  rcases lt_trichotomy b 0 with hb | hb | hb
  · have hq : a / b ≤ 0 := div_nonpos_of_nonneg_of_nonpos h hb.le
    rcases le_or_lt 0 (a / b) with h0 | h0
    · have hq0 : a / b = 0 := le_antisymm hq h0
      have ha0 : a = 0 := by
        rcases div_eq_zero_iff.mp hq0 with h' | h'
        · exact h'
        · exact absurd h' (by intro hh; exact absurd hh hb.ne)
      simp [ha0, hq0, if_pos (le_refl (0 : ℚ))]
    · rw [if_neg (by linarith)]
      have hceil : (a / b : ℚ) ≤ (⌈a / b⌉ : ℚ) := Int.le_ceil _
      have hmul : (⌈a / b⌉ : ℚ) * b ≤ (a / b) * b :=
        mul_le_mul_of_nonpos_right hceil hb.le
      rw [div_mul_cancel₀ a hb.ne] at hmul
      linarith
  · simp [hb, h]
  · have hq : 0 ≤ a / b := div_nonneg h hb.le
    rw [if_pos hq]
    have hfloor : ((⌊a / b⌋ : ℚ)) ≤ a / b := Int.floor_le _
    have hmul : (⌊a / b⌋ : ℚ) * b ≤ (a / b) * b :=
      mul_le_mul_of_nonneg_right hfloor hb.le
    rw [div_mul_cancel₀ a hb.ne'] at hmul
    linarith

theorem qfmod_nonpos (a b : ℚ) (h : a ≤ 0) : qfmod a b ≤ 0 := by
  have h2 := qfmod_nonneg (-a) b (by linarith)
  rw [qfmod_neg_left] at h2
  linarith

theorem toI_ne_zero_of_not_float (s : Scalar) (hf : s.isFloat = false)
    (hz : s.isZero = false) : s.toI ≠ 0 := by
  cases s <;> simp_all [Scalar.isFloat, Scalar.isZero, Scalar.toI, boolInt]

/-- C5: the mod rule with scalar operands and a nonzero divisor. When both
operands are integers or booleans it folds to an integer scalar holding the
truncating remainder: together with the truncating quotient it reconstructs
the dividend, its magnitude is below the divisor's, its sign follows the
dividend (e.g. `mod(-7, 3) = -1`), and the quotient's magnitude is the
magnitude quotient (rounding toward zero). When either operand is a float it
folds to a float scalar holding the library floating remainder, whose sign
also follows the dividend. -/
theorem mod_semantics (s1 s2 : Scalar) (h : s2.isZero = false) :
    (s1.isFloat = false ∧ s2.isFloat = false →
      declareUfunc .mod ⟨.scalar s1, .scalar s2, none, none⟩ =
        .ok ⟨.scalar (.i (Int.tmod s1.toI s2.toI)), true, none⟩ ∧
      s2.toI * Int.tdiv s1.toI s2.toI + Int.tmod s1.toI s2.toI = s1.toI ∧
      (Int.tmod s1.toI s2.toI).natAbs < s2.toI.natAbs ∧
      (Int.tdiv s1.toI s2.toI).natAbs = s1.toI.natAbs / s2.toI.natAbs ∧
      (0 ≤ s1.toI → 0 ≤ Int.tmod s1.toI s2.toI) ∧
      (s1.toI ≤ 0 → Int.tmod s1.toI s2.toI ≤ 0)) ∧
    (s1.isFloat = true ∨ s2.isFloat = true →
      declareUfunc .mod ⟨.scalar s1, .scalar s2, none, none⟩ =
        .ok ⟨.scalar (.f (qfmod s1.toQ s2.toQ)), true, none⟩ ∧
      (0 ≤ s1.toQ → 0 ≤ qfmod s1.toQ s2.toQ) ∧
      (s1.toQ ≤ 0 → qfmod s1.toQ s2.toQ ≤ 0)) := by
  constructor
  · rintro ⟨hf1, hf2⟩
    refine ⟨?_, Int.tdiv_add_tmod _ _, natAbs_tmod_lt _ (toI_ne_zero_of_not_float s2 hf2 h),
      Int.natAbs_tdiv _ _, fun h1 => Int.tmod_nonneg _ h1,
      fun h1 => tmod_nonpos_of_nonpos _ h1⟩
    simp [declareUfunc, declareMod, scalarOf, h, cMod, hf1, hf2]
  · intro hf
    refine ⟨?_, qfmod_nonneg _ _, qfmod_nonpos _ _⟩
    rcases hf with hf | hf <;>
      simp [declareUfunc, declareMod, scalarOf, h, cMod, hf]

theorem mod_semantics_witness :
    (Scalar.i 3).isZero = false ∧
    declareUfunc .mod ⟨.scalar (.i (-7)), .scalar (.i 3), none, none⟩ =
      .ok ⟨.scalar (.i (-1)), true, none⟩ ∧
    declareUfunc .mod ⟨.scalar (.f (-7)), .scalar (.f 3), none, none⟩ =
      .ok ⟨.scalar (.f (-1)), true, none⟩ := by
  refine ⟨by decide, ?_, ?_⟩
  · have h := ((mod_semantics (.i (-7)) (.i 3) (by decide)).1 ⟨rfl, rfl⟩).1
    simpa using h
  · have h := ((mod_semantics (.f (-7)) (.f 3) (by decide)).2 (Or.inl rfl)).1
    rw [h]
    have hc : ⌈(-(7 / 3) : ℚ)⌉ = -2 := by
      rw [Int.ceil_eq_iff]
      constructor <;> norm_num
    norm_num [qfmod, ratTrunc, Scalar.toQ, hc]

/-! ### Broadcast shape computation -/

theorem mapOpt_eq_map (f : Nat → Option Int) (g : Nat → Int) (l : List Nat)
    (h : ∀ j ∈ l, f j = some (g j)) : mapOpt f l = some (l.map g) := by
  induction l with
  | nil => rfl
  | cons j js ih =>
    have hj := h j (by simp)
    have hjs := ih fun a ha => h a (by simp [ha])
    simp [mapOpt, hj, hjs]

theorem mapOpt_eq_none (f : Nat → Option Int) (l : List Nat) (j : Nat)
    (hj : j ∈ l) (h : f j = none) : mapOpt f l = none := by
  induction l with
  | nil => cases hj
  | cons a as ih =>
    rcases List.mem_cons.mp hj with rfl | hmem
    · simp [mapOpt, h]
    · unfold mapOpt
      rw [ih hmem]
      cases f a <;> rfl

theorem broadcastDim_eq_some (d1 d2 : Int) (h : dimCompat d1 d2) :
    broadcastDim d1 d2 = some (specBroadcastDim d1 d2) := by
  unfold broadcastDim specBroadcastDim
  rcases h with h | h | h <;> split_ifs <;> simp_all

theorem broadcastDim_eq_none (d1 d2 : Int) (h : ¬ dimCompat d1 d2) :
    broadcastDim d1 d2 = none := by
  unfold dimCompat at h
  push_neg at h
  simp [broadcastDim, h.1, h.2.1, h.2.2]

theorem makeBinaryTensorShape_eq_some (s1 s2 : List Int)
    (h : ∀ i < max s1.length s2.length, dimCompat (trailDim s1 i) (trailDim s2 i)) :
    makeBinaryTensorShape s1 s2 =
      some ((List.range (max s1.length s2.length)).map fun j =>
        specBroadcastDim (trailDim s1 (max s1.length s2.length - 1 - j))
          (trailDim s2 (max s1.length s2.length - 1 - j))) := by
  unfold makeBinaryTensorShape
  apply mapOpt_eq_map
  intro j hj
  rw [List.mem_range] at hj
  have hi : max s1.length s2.length - 1 - j < max s1.length s2.length := by omega
  simpa [trailDim] using
    broadcastDim_eq_some (trailDim s1 (max s1.length s2.length - 1 - j))
      (trailDim s2 (max s1.length s2.length - 1 - j)) (h _ hi)

theorem makeBinaryTensorShape_eq_none (s1 s2 : List Int) (i : Nat)
    (hi : i < max s1.length s2.length)
    (h : ¬ dimCompat (trailDim s1 i) (trailDim s2 i)) :
    makeBinaryTensorShape s1 s2 = none := by
  unfold makeBinaryTensorShape
  apply mapOpt_eq_none _ _ (max s1.length s2.length - 1 - i)
  · rw [List.mem_range]; omega
  · have hji : max s1.length s2.length - 1 - (max s1.length s2.length - 1 - i) = i := by
      omega
    rw [hji]
    simpa [trailDim] using broadcastDim_eq_none _ _ h

/-- C1: add/subtract/multiply on two tensor operands with no `out`/`where`:
the output shape is computed by right-aligning the shapes (trailing positions
first, missing sizes read as `1`), the size at each position being `d2` if
`d1 == 1`, `d1` if `d2 == 1`, `d1` if `d1 == d2`, any other combination
failing fatally; the output rank is the maximum of the two ranks, and the
output tensor's device and dtype are taken from the first operand (its
device also becomes the call's `ctx`). -/
theorem tensor_broadcast_decl (op : UfuncOp) (t1 t2 : TensorValue)
    (hop : op = .add ∨ op = .subtract ∨ op = .multiply) :
    ((∀ i < max t1.shape.length t2.shape.length,
        dimCompat (trailDim t1.shape i) (trailDim t2.shape i)) →
      declareUfunc op ⟨.tensor t1, .tensor t2, none, none⟩ =
        .ok ⟨.tensor ⟨t1.ctx, t1.dtype,
            (List.range (max t1.shape.length t2.shape.length)).map fun j =>
              specBroadcastDim
                (trailDim t1.shape (max t1.shape.length t2.shape.length - 1 - j))
                (trailDim t2.shape (max t1.shape.length t2.shape.length - 1 - j))⟩,
          false, some t1.ctx⟩ ∧
      ((List.range (max t1.shape.length t2.shape.length)).map fun j =>
          specBroadcastDim
            (trailDim t1.shape (max t1.shape.length t2.shape.length - 1 - j))
            (trailDim t2.shape (max t1.shape.length t2.shape.length - 1 - j))).length =
        max t1.shape.length t2.shape.length) ∧
    ((∃ i, i < max t1.shape.length t2.shape.length ∧
        ¬ dimCompat (trailDim t1.shape i) (trailDim t2.shape i)) →
      declareUfunc op ⟨.tensor t1, .tensor t2, none, none⟩ = .error .shapeMismatch) := by
  have hbody : ∀ f : Scalar → Scalar → Scalar,
      ((∀ i < max t1.shape.length t2.shape.length,
          dimCompat (trailDim t1.shape i) (trailDim t2.shape i)) →
        declareArith f ⟨.tensor t1, .tensor t2, none, none⟩ =
          .ok ⟨.tensor ⟨t1.ctx, t1.dtype,
              (List.range (max t1.shape.length t2.shape.length)).map fun j =>
                specBroadcastDim
                  (trailDim t1.shape (max t1.shape.length t2.shape.length - 1 - j))
                  (trailDim t2.shape (max t1.shape.length t2.shape.length - 1 - j))⟩,
            false, some t1.ctx⟩ ∧
        ((List.range (max t1.shape.length t2.shape.length)).map fun j =>
            specBroadcastDim
              (trailDim t1.shape (max t1.shape.length t2.shape.length - 1 - j))
              (trailDim t2.shape (max t1.shape.length t2.shape.length - 1 - j))).length =
          max t1.shape.length t2.shape.length) ∧
      ((∃ i, i < max t1.shape.length t2.shape.length ∧
          ¬ dimCompat (trailDim t1.shape i) (trailDim t2.shape i)) →
        declareArith f ⟨.tensor t1, .tensor t2, none, none⟩ = .error .shapeMismatch) := by
    intro f
    constructor
    · intro h
      refine ⟨?_, by simp⟩
      simp [declareArith, binaryScalar, scalarOf, binaryTensor, MakeBinaryTensor,
        makeBinaryTensorShape_eq_some t1.shape t2.shape h]
    · rintro ⟨i, hi, hc⟩
      simp [declareArith, binaryScalar, scalarOf, binaryTensor, MakeBinaryTensor,
        makeBinaryTensorShape_eq_none t1.shape t2.shape i hi hc]
  rcases hop with rfl | rfl | rfl <;> (simp only [declareUfunc]; exact hbody _)

theorem tensor_broadcast_decl_witness :
    ((UfuncOp.add = UfuncOp.add ∨ UfuncOp.add = UfuncOp.subtract ∨
        UfuncOp.add = UfuncOp.multiply) ∧
      (∀ i < max [(3 : Int), 1, 5].length [(4 : Int), 5].length,
        dimCompat (trailDim [3, 1, 5] i) (trailDim [4, 5] i))) ∧
    declareUfunc .add
        ⟨.tensor ⟨2, 7, [3, 1, 5]⟩, .tensor ⟨0, 0, [4, 5]⟩, none, none⟩ =
      .ok ⟨.tensor ⟨2, 7, [3, 4, 5]⟩, false, some 2⟩ := by
  refine ⟨⟨by decide, by decide⟩, ?_⟩
  have h := ((tensor_broadcast_decl .add ⟨2, 7, [3, 1, 5]⟩ ⟨0, 0, [4, 5]⟩
    (by decide)).1 (by decide)).1
  rw [h]
  rfl

/-- C2 counterexample: at shapes `[1]` and `[0]` the aligned pair `(1, 0)` is
broadcast-compatible (one side is `1`), yet the computed size is `0`, not
`max 1 0 = 1`: the claimed `max` formula fails when a dimension of size `0`
faces a dimension of size `1`. -/
theorem broadcast_max_counterexample :
    dimCompat (trailDim [1] 0) (trailDim [0] 0) ∧
    makeBinaryTensorShape [1] [0] = some [0] ∧
    ¬ makeBinaryTensorShape [1] [0] =
        some [max (trailDim [1] 0) (trailDim [0] 0)] := by
  decide

theorem specBroadcastDim_eq_max (d1 d2 : Int) (h1 : 0 < d1) (h2 : 0 < d2)
    (hc : dimCompat d1 d2) : specBroadcastDim d1 d2 = max d1 d2 := by
  unfold specBroadcastDim
  rcases hc with h | h | h <;> split_ifs <;> omega

theorem trailDim_pos (s : List Int) (h : ∀ d ∈ s, 0 < d) (i : Nat) :
    0 < trailDim s i := by
  unfold trailDim
  split
  case isTrue hlt =>
    have hl : s.length - 1 - i < s.length := by omega
    have hg : s.getD (s.length - 1 - i) 1 = s[s.length - 1 - i] := by
      rw [List.getD_eq_getElem?_getD, List.getElem?_eq_getElem hl]
      rfl
    rw [hg]
    exact h _ (List.getElem_mem hl)
  case isFalse _ => norm_num

/-- C2 (amended): for shapes all of whose dimension sizes are positive, if
every aligned trailing pair is equal or has a side equal to `1`, the output
size at each position is the `max` of the two aligned sizes (missing leading
dimensions read as `1`); and whenever some aligned pair has unequal sizes
both different from `1`, the computation fails fatally. (Without the
positivity restriction the `max` clause is false: see the counterexample.) -/
theorem broadcast_max_amended (s1 s2 : List Int) :
    ((∀ d ∈ s1, 0 < d) → (∀ d ∈ s2, 0 < d) →
      (∀ i < max s1.length s2.length, dimCompat (trailDim s1 i) (trailDim s2 i)) →
      makeBinaryTensorShape s1 s2 =
        some ((List.range (max s1.length s2.length)).map fun j =>
          max (trailDim s1 (max s1.length s2.length - 1 - j))
            (trailDim s2 (max s1.length s2.length - 1 - j)))) ∧
    ((∃ i, i < max s1.length s2.length ∧
        ¬ dimCompat (trailDim s1 i) (trailDim s2 i)) →
      makeBinaryTensorShape s1 s2 = none) := by
  constructor
  · intro h1 h2 hc
    rw [makeBinaryTensorShape_eq_some s1 s2 hc]
    congr 1
    apply List.map_congr_left
    intro j hj
    rw [List.mem_range] at hj
    have hi : max s1.length s2.length - 1 - j < max s1.length s2.length := by omega
    exact specBroadcastDim_eq_max _ _ (trailDim_pos s1 h1 _) (trailDim_pos s2 h2 _)
      (hc _ hi)
  · rintro ⟨i, hi, hc⟩
    exact makeBinaryTensorShape_eq_none s1 s2 i hi hc

theorem broadcast_max_amended_witness :
    ((∀ d ∈ [(3 : Int), 1, 5], 0 < d) ∧ (∀ d ∈ [(4 : Int), 5], 0 < d) ∧
      (∀ i < max [(3 : Int), 1, 5].length [(4 : Int), 5].length,
        dimCompat (trailDim [3, 1, 5] i) (trailDim [4, 5] i))) ∧
    makeBinaryTensorShape [3, 1, 5] [4, 5] = some [3, 4, 5] := by
  refine ⟨⟨by decide, by decide, by decide⟩, ?_⟩
  have h := (broadcast_max_amended [3, 1, 5] [4, 5]).1 (by decide) (by decide) (by decide)
  rw [h]
  decide

/-- C6: the `add_dx` gradient-shape check succeeds exactly when the parameter
tensor's rank does not exceed the gradient's and, after right-aligning by the
rank difference, every parameter dimension is `1` or equals the aligned
gradient dimension; on success `out` is a tensor descriptor whose shape,
dtype and device exactly equal the parameter's (its device also becomes the
call's `ctx`); any violation fails fatally. -/
theorem add_dx_shape_check (x dy : TensorValue) :
    ((x.shape.length ≤ dy.shape.length ∧
        ∀ i < x.shape.length,
          x.shape.getD i 0 = 1 ∨
          x.shape.getD i 0 = dy.shape.getD (i + (dy.shape.length - x.shape.length)) 0) →
      declareAddDx x dy = some ⟨.tensor ⟨x.ctx, x.dtype, x.shape⟩, false, some x.ctx⟩) ∧
    (¬ (x.shape.length ≤ dy.shape.length ∧
        ∀ i < x.shape.length,
          x.shape.getD i 0 = 1 ∨
          x.shape.getD i 0 = dy.shape.getD (i + (dy.shape.length - x.shape.length)) 0) →
      declareAddDx x dy = none) := by
  have hall : ((List.range x.shape.length).all
      (fun i => x.shape.getD i 0 == 1 ||
        x.shape.getD i 0 == dy.shape.getD (i + (dy.shape.length - x.shape.length)) 0)) = true ↔
      ∀ i < x.shape.length,
        x.shape.getD i 0 = 1 ∨
        x.shape.getD i 0 = dy.shape.getD (i + (dy.shape.length - x.shape.length)) 0 := by
    simp [List.all_eq_true, List.mem_range]
  constructor
  · rintro ⟨h1, h2⟩
    unfold declareAddDx
    rw [if_pos h1, if_pos (hall.mpr h2)]
  · intro hn
    unfold declareAddDx
    by_cases h1 : x.shape.length ≤ dy.shape.length
    · rw [if_pos h1, if_neg]
      intro h2
      exact hn ⟨h1, hall.mp h2⟩
    · rw [if_neg h1]

theorem add_dx_shape_check_witness :
    (([(1 : Int), 5].length ≤ [(3 : Int), 4, 5].length ∧
        ∀ i < [(1 : Int), 5].length,
          [(1 : Int), 5].getD i 0 = 1 ∨
          [(1 : Int), 5].getD i 0 =
            [(3 : Int), 4, 5].getD (i + ([(3 : Int), 4, 5].length - [(1 : Int), 5].length)) 0) ∧
      declareAddDx ⟨6, 9, [1, 5]⟩ ⟨1, 1, [3, 4, 5]⟩ =
        some ⟨.tensor ⟨6, 9, [1, 5]⟩, false, some 6⟩) ∧
    declareAddDx ⟨6, 9, [2, 5]⟩ ⟨1, 1, [3, 4, 5]⟩ = none :=
  ⟨⟨by decide, (add_dx_shape_check ⟨6, 9, [1, 5]⟩ ⟨1, 1, [3, 4, 5]⟩).1 (by decide)⟩,
    (add_dx_shape_check ⟨6, 9, [2, 5]⟩ ⟨1, 1, [3, 4, 5]⟩).2 (by decide)⟩

/-! ### The dialect-dispatch pass -/

theorem dispatchVisit_call (R : OpRegistry) (dev : DevType) (f : Expr)
    (args : List Expr) :
    dispatchVisit R dev (.call f args) =
      .call (dispatchVisit R dev f) (args.map (dispatchVisit R dev)) := by
  rw [dispatchVisit]
  congr 1
  exact List.attach_map_val args (dispatchVisit R dev)

theorem dispatchVisit_tuple (R : OpRegistry) (dev : DevType) (es : List Expr) :
    dispatchVisit R dev (.tuple es) = .tuple (es.map (dispatchVisit R dev)) := by
  rw [dispatchVisit]
  congr 1
  exact List.attach_map_val es (dispatchVisit R dev)

theorem dispatchVisit_func_primitive (R : OpRegistry) (dev : DevType)
    (ps : List Nat) (b : Expr) :
    dispatchVisit R dev (.func true ps b) = .func true ps b := by
  simp [dispatchVisit]

theorem dispatchVisit_fill_primitive (R : OpRegistry) (dev : DevType)
    (ps : List Nat) (b : Expr) (C : Ctx) :
    ∃ C2 : Ctx, dispatchVisit R dev (C.fill (.func true ps b)) =
      C2.fill (.func true ps b) := by
  induction C with
  | hole => exact ⟨.hole, by simp [Ctx.fill, dispatchVisit]⟩
  | callFn c args ih =>
    obtain ⟨c2, hc2⟩ := ih
    exact ⟨.callFn c2 (args.map (dispatchVisit R dev)), by
      simp [Ctx.fill, dispatchVisit_call, hc2]⟩
  | callArg f pre c post ih =>
    obtain ⟨c2, hc2⟩ := ih
    refine ⟨.callArg (dispatchVisit R dev f) (pre.map (dispatchVisit R dev)) c2
      (post.map (dispatchVisit R dev)), ?_⟩
    simp [Ctx.fill, dispatchVisit_call, hc2]
  | funcBody prim ps2 c ih =>
    obtain ⟨c2, hc2⟩ := ih
    cases prim
    · exact ⟨.funcBody false ps2 c2, by simp [Ctx.fill, dispatchVisit, hc2]⟩
    · exact ⟨.funcBody true ps2 c, by simp [Ctx.fill, dispatchVisit]⟩
  | letVal v c e2 ih =>
    obtain ⟨c2, hc2⟩ := ih
    exact ⟨.letVal v c2 (dispatchVisit R dev e2), by simp [Ctx.fill, dispatchVisit, hc2]⟩
  | letBody v e1 c ih =>
    obtain ⟨c2, hc2⟩ := ih
    exact ⟨.letBody v (dispatchVisit R dev e1) c2, by simp [Ctx.fill, dispatchVisit, hc2]⟩
  | tupleElem pre c post ih =>
    obtain ⟨c2, hc2⟩ := ih
    refine ⟨.tupleElem (pre.map (dispatchVisit R dev)) c2
      (post.map (dispatchVisit R dev)), ?_⟩
    simp [Ctx.fill, dispatchVisit_tuple, hc2]
  | ifCond c t e ih =>
    obtain ⟨c2, hc2⟩ := ih
    exact ⟨.ifCond c2 (dispatchVisit R dev t) (dispatchVisit R dev e), by
      simp [Ctx.fill, dispatchVisit, hc2]⟩
  | ifThen cnd c e ih =>
    obtain ⟨c2, hc2⟩ := ih
    exact ⟨.ifThen (dispatchVisit R dev cnd) c2 (dispatchVisit R dev e), by
      simp [Ctx.fill, dispatchVisit, hc2]⟩
  | ifElse cnd t c ih =>
    obtain ⟨c2, hc2⟩ := ih
    exact ⟨.ifElse (dispatchVisit R dev cnd) (dispatchVisit R dev t) c2, by
      simp [Ctx.fill, dispatchVisit, hc2]⟩

/-- C8: the dispatch mutator does not recurse into a sub-function whose
primitive attribute is nonzero — it returns it unchanged — so for any
occurrence of a primitive function inside a larger expression (described by
a one-hole context) the rewritten expression still contains that primitive
function verbatim: every operator reference strictly inside it is unchanged,
whatever dialect registrations exist. -/
theorem dispatch_preserves_primitive (R : OpRegistry) (dev : DevType)
    (ps : List Nat) (b : Expr) (C : Ctx) :
    dispatchVisit R dev (.func true ps b) = .func true ps b ∧
    ∃ C2 : Ctx, dispatchVisit R dev (C.fill (.func true ps b)) =
      C2.fill (.func true ps b) :=
  ⟨dispatchVisit_func_primitive R dev ps b,
    dispatchVisit_fill_primitive R dev ps b C⟩

theorem dispatchVisit_idem (R : OpRegistry) (dev : DevType)
    (hR : ∀ o o2, R.dispatch o dev = some o2 → R.isDialect o2 = true) (e : Expr) :
    dispatchVisit R dev (dispatchVisit R dev e) = dispatchVisit R dev e := by
  cases e with
  | var v => simp [dispatchVisit]
  | opRef o =>
    by_cases hd : R.isDialect o
    · simp [dispatchVisit, hd]
    · cases hdisp : R.dispatch o dev with
      | none => simp [dispatchVisit, hd, hdisp]
      | some o2 =>
        have h2 := hR o o2 hdisp
        simp [dispatchVisit, hd, hdisp, h2]
  | call f args =>
    rw [dispatchVisit_call, dispatchVisit_call,
      dispatchVisit_idem R dev hR f, List.map_map]
    congr 1
    apply List.map_congr_left
    intro a ha
    exact dispatchVisit_idem R dev hR a
  | func prim ps b =>
    cases prim
    · rw [show dispatchVisit R dev (.func false ps b) =
          .func false ps (dispatchVisit R dev b) by simp [dispatchVisit]]
      simp [dispatchVisit, dispatchVisit_idem R dev hR b]
    · simp [dispatchVisit]
  | letE v e1 e2 =>
    simp [dispatchVisit, dispatchVisit_idem R dev hR e1,
      dispatchVisit_idem R dev hR e2]
  | tuple es =>
    rw [dispatchVisit_tuple, dispatchVisit_tuple, List.map_map]
    congr 1
    apply List.map_congr_left
    intro a ha
    exact dispatchVisit_idem R dev hR a
  | ifE c t e =>
    simp [dispatchVisit, dispatchVisit_idem R dev hR c,
      dispatchVisit_idem R dev hR t, dispatchVisit_idem R dev hR e]
termination_by sizeOf e
decreasing_by
  all_goals simp_wf
  all_goals try (have h := List.sizeOf_lt_of_mem ha; omega)
  all_goals omega

/-- C9: for a fixed device and registry snapshot in which every op the
registry dispatches to is dialect-specific, applying the dispatch pass twice
yields the same result as applying it once: dialect-specific references are
recognized by the per-node rule and returned unchanged, so the second
application substitutes nothing. -/
theorem dispatch_idempotent (dev : Device) (R : OpRegistry)
    (hR : ∀ o o2, R.dispatch o dev.device_type = some o2 → R.isDialect o2 = true)
    (e : Expr) :
    Dispatch dev R (Dispatch dev R e) = Dispatch dev R e := by
  by_cases h : dev.device_type = kUnknownDev ∨ dev.device_id < 0
  · simp [Dispatch, h]
  · simp only [Dispatch, if_neg h]
    exact dispatchVisit_idem R dev.device_type hR e

theorem dispatch_idempotent_witness :
    Dispatch ⟨1, 0⟩
        ⟨fun o => decide (100 ≤ o), fun o _ => if o < 100 then some (o + 100) else none⟩
        (Dispatch ⟨1, 0⟩
          ⟨fun o => decide (100 ≤ o), fun o _ => if o < 100 then some (o + 100) else none⟩
          (.call (.opRef 5) [.opRef 120, .var 0])) =
      Dispatch ⟨1, 0⟩
        ⟨fun o => decide (100 ≤ o), fun o _ => if o < 100 then some (o + 100) else none⟩
        (.call (.opRef 5) [.opRef 120, .var 0]) := by
  apply dispatch_idempotent
  intro o o2 h
  dsimp at h
  split at h
  · cases h
    simp
  · cases h

/-- C10: when no device context is active — unknown device type or negative
device index — the `Dispatch` entry point returns the input expression
unchanged (no substitution anywhere; only a warning is logged). -/
theorem dispatch_unset_device_noop (dev : Device) (R : OpRegistry) (e : Expr)
    (h : dev.device_type = kUnknownDev ∨ dev.device_id < 0) :
    Dispatch dev R e = e := by
  unfold Dispatch
  rw [if_pos h]

theorem dispatch_unset_device_noop_witness :
    ((Device.mk 0 3).device_type = kUnknownDev ∨ (Device.mk 0 3).device_id < 0) ∧
    Dispatch ⟨0, 3⟩ ⟨fun _ => false, fun o _ => some (o + 1)⟩ (.opRef 5) = .opRef 5 :=
  ⟨Or.inl rfl,
    dispatch_unset_device_noop ⟨0, 3⟩ ⟨fun _ => false, fun o _ => some (o + 1)⟩
      (.opRef 5) (Or.inl rfl)⟩

end Raf
